import Mathlib

/-!
Shallow embedding of `mn_vote_monitor.py` (MasternodeVoteMonitor).

The blockchain node and the governance smart contract are external
collaborators; they are modelled as a record of total query functions
(`Node`).  Python `int` is modelled as `Int`.  Python dictionaries are
modelled as insertion-ordered association lists (`List (String × _)`);
`d[k]` accesses that can raise `KeyError`, and the tuple unpacking of a
`None` return (a `TypeError`), are modelled with `Except Unit`.
-/

/-- An output script: `vout.script_pubkey` with its `type` tag and
`addresses` list. -/
structure ScriptPubKey where
  type : String
  addresses : List String
deriving DecidableEq

/-- A transaction output. -/
structure Vout where
  script_pubkey : ScriptPubKey
deriving DecidableEq

/-- A transaction: its list of outputs. -/
structure Transaction where
  vout : List Vout
deriving DecidableEq

/-- A block: its list of transactions. -/
structure Block where
  transactions : List Transaction
deriving DecidableEq

/-- The node / smart-contract collaborator, as consumed by the core:
each field is one of the external queries of the spec's §6. -/
structure Node where
  /-- `node.blockstore.get_block_count()` -/
  blockCount : Int
  /-- `node.federation.miner_at_height(h)`; `none` models an absent key. -/
  minerAtHeight : Int → Option String
  /-- `node.consensus.get_blockhash` + `node.blockstore.block`. -/
  blockAtHeight : Int → Block
  /-- `node.federation.members()`, as strings. -/
  federationMembers : List String
  /-- `node.federation.federation_at_height(h)`, as strings. -/
  federationAtHeight : Int → List String
  /-- `IsWhitelisted(address)` local call. -/
  isWhitelisted : String → Bool
  /-- `GetVote(proposalId, address)` local call; `Union[int, None]`. -/
  getVote : Int → String → Option Int
  /-- `LastProposalId()` local call (uint32). -/
  lastProposalId : Nat
  /-- `GetVotingDeadline(proposalId)` local call. -/
  deadlines : Int → Int

/-- `get_current_federation_pubkeys`: the federation member keys as strings. -/
def get_current_federation_pubkeys (node : Node) : List String :=
  node.federationMembers

/-- The inner loop of `get_pubkey_and_address_for_height` over one
transaction's `vout` list: return the first output whose
`script_pubkey.type` is `pubkey` or `pubkeyhash`, taking
`script_pubkey.addresses[0]` (an `IndexError`, modelled `.error`, if the
addresses list is empty). -/
def find_vout_address : List Vout → Except Unit (Option String)
  | [] => .ok none
  | v :: rest =>
    if v.script_pubkey.type = "pubkey" ∨ v.script_pubkey.type = "pubkeyhash" then
      match v.script_pubkey.addresses.head? with
      | some a => .ok (some a)
      | none => .error ()
    else find_vout_address rest

/-- The outer loop of `get_pubkey_and_address_for_height` over
`block.transactions`: scan each transaction's outputs in order and stop
at the first qualifying one. -/
def find_block_address : List Transaction → Except Unit (Option String)
  | [] => .ok none
  | t :: rest =>
    match find_vout_address t.vout with
    | .error e => .error e
    | .ok (some a) => .ok (some a)
    | .ok none => find_block_address rest

/-- `get_pubkey_and_address_for_height`: the producer key and the first
qualifying output address of the block at `height`.  `.ok none` models
the Python function falling off the end and returning `None`. -/
def get_pubkey_and_address_for_height (node : Node) (height : Int) :
    Except Unit (Option (Option String × String)) :=
  let pubkey := node.minerAtHeight height
  let block := node.blockAtHeight height
  match find_block_address block.transactions with
  | .error e => .error e
  | .ok (some a) => .ok (some (pubkey, a))
  | .ok none => .ok none

/-- One iteration of the scan loop in `get_address_to_fedkey_map`:
`pubkey, address = get_pubkey_and_address_for_height(...)` followed by
the conditional dictionary insert.  Unpacking the `None` returned when
no output qualifies raises `TypeError`, modelled `.error`. -/
def fedkey_scan_step (node : Node) (m : List (String × String)) (height : Int) :
    Except Unit (List (String × String)) :=
  match get_pubkey_and_address_for_height node height with
  | .error e => .error e
  | .ok none => .error ()
  | .ok (some (pk?, address)) =>
    match pk? with
    | none => .ok m
    | some pk => if (m.lookup pk).isSome then .ok m else .ok (m ++ [(pk, address)])

/-- `range(start, stop)` over `Int`, ascending. -/
def intRange (start stop : Int) : List Int :=
  (List.range (stop - start).toNat).map (fun i => start + (i : Int))

/-- The heights scanned by `get_address_to_fedkey_map`:
`range(current_block_height - lookback, current_block_height)`. -/
def scan_heights (node : Node) (lookback : Int) : List Int :=
  intRange (node.blockCount - lookback) node.blockCount

/-- The intermediate `fedkey_to_address_map` dictionary built by the scan
loop of `get_address_to_fedkey_map` (lines 89-97 of the source). -/
def fedkey_to_address_map (node : Node) (lookback : Int) :
    Except Unit (List (String × String)) :=
  (scan_heights node lookback).foldlM (fedkey_scan_step node) []

/-- One step of a Python dict comprehension insert: update the value in
place if the key exists, else append. -/
def dict_insert (m : List (String × String)) (k v : String) : List (String × String) :=
  if (m.lookup k).isSome then m.map (fun p => if p.1 = k then (k, v) else p)
  else m ++ [(k, v)]

/-- `{str(v): k for k, v in fedkey_to_address_map.items()}`: invert the
key→address dictionary; on duplicate addresses the later key wins. -/
def dict_invert (m : List (String × String)) : List (String × String) :=
  m.foldl (fun acc p => dict_insert acc p.2 p.1) []

/-- `get_address_to_fedkey_map`: scan the lookback window, then reverse
the mapping. -/
def get_address_to_fedkey_map (node : Node) (lookback : Int) :
    Except Unit (List (String × String)) :=
  match fedkey_to_address_map node lookback with
  | .error e => .error e
  | .ok m => .ok (dict_invert m)

/-- `find_whitelisted_federation_addresses`: keep the payout addresses
whose `IsWhitelisted` local call returns true. -/
def find_whitelisted_federation_addresses (node : Node)
    (payout_address_list : List String) : List String :=
  payout_address_list.filter node.isWhitelisted

/-- `get_last_proposal_id`: the `LastProposalId()` local call. -/
def get_last_proposal_id (node : Node) : Nat :=
  node.lastProposalId

/-- `get_proposal_ending_height`: the `GetVotingDeadline(proposalId)`
local call. -/
def get_proposal_ending_height (node : Node) (proposal_id : Int) : Int :=
  node.deadlines proposal_id

/-- `get_last_completed_proposal_id`: starting from 1, walk ids
`1..highest_proposal_id` and keep the last one whose ending height is
below the current chain height and nonzero. -/
def get_last_completed_proposal_id (node : Node) (highest_proposal_id : Nat) : Nat :=
  (List.range highest_proposal_id).foldl
    (fun best_completed_proposal_id index =>
      let proposal_id : Nat := index + 1
      let ending_height := get_proposal_ending_height node ((proposal_id : Nat) : Int)
      if ending_height < node.blockCount ∧ ending_height ≠ 0 then proposal_id
      else best_completed_proposal_id)
    1

/-- `get_address_proposal_vote`: the `GetVote(proposalId, address)` local
call. -/
def get_address_proposal_vote (node : Node) (proposal_id : Int) (address : String) :
    Option Int :=
  node.getVote proposal_id address

/-- The per-address `{'NoVote': [], 'No': [], 'Yes': []}` substructure of
the tabulation dictionary. -/
structure VoteRecord where
  NoVote : List Int
  No : List Int
  Yes : List Int
deriving DecidableEq

/-- `tabulate_fed_member_votes`: for each address, bucket proposal ids
`1..num_sda_proposals` by the integer vote code (0/1/2); any other code
(or a `None` return) is ignored. -/
def tabulate_fed_member_votes (node : Node)
    (current_whitelisted_fed_addresses : List String)
    (num_sda_proposals : Nat) : List (String × VoteRecord) :=
  current_whitelisted_fed_addresses.map (fun address =>
    (address, (List.range num_sda_proposals).foldl
      (fun acc index =>
        let proposal_id : Int := Int.ofNat index + 1
        match get_address_proposal_vote node proposal_id address with
        | some 0 => { acc with NoVote := acc.NoVote ++ [proposal_id] }
        | some 1 => { acc with No := acc.No ++ [proposal_id] }
        | some 2 => { acc with Yes := acc.Yes ++ [proposal_id] }
        | _ => acc)
      ⟨[], [], []⟩))

/-- The `(proposal_id, address)` pairs at which the tabulation loop of
`tabulate_fed_member_votes` issues its `GetVote` local calls, in loop
order. -/
def tabulate_getvote_queries (current_whitelisted_fed_addresses : List String)
    (num_sda_proposals : Nat) : List (Int × String) :=
  current_whitelisted_fed_addresses.flatMap (fun address =>
    (List.range num_sda_proposals).map (fun index => (Int.ofNat index + 1, address)))

/-- The proposal id `best_proposal_id - 2` whose ending height
`filter_eligible_fedkeys` looks up as the eligibility checkpoint. -/
def eligibility_checkpoint_proposal_id (best_proposal_id : Int) : Int :=
  best_proposal_id - 2

/-- `filter_eligible_fedkeys`: keep the vote-dictionary entries whose
address maps (via `address_to_fedkey_map[k]`, a possible `KeyError`,
modelled `.error`) to a key in the federation at the ending height of
proposal `best_proposal_id - 2`. -/
def filter_eligible_fedkeys (node : Node)
    (fed_member_votes : List (String × VoteRecord))
    (address_to_fedkey_map : List (String × String))
    (best_proposal_id : Int) : Except Unit (List (String × VoteRecord)) :=
  let ending_height_for_third_last_proposal :=
    get_proposal_ending_height node (eligibility_checkpoint_proposal_id best_proposal_id)
  let federation_at_end_of_third_last_proposal :=
    node.federationAtHeight ending_height_for_third_last_proposal
  fed_member_votes.foldlM
    (fun acc kv =>
      match address_to_fedkey_map.lookup kv.1 with
      | none => .error ()
      | some fk =>
        if fk ∈ federation_at_end_of_third_last_proposal then .ok (acc ++ [kv])
        else .ok acc)
    []

/-- `get_nonvoting_fedkeys_in_last_3_proposals`: the keys (via
`address_to_fedkey_map[k]`, a possible `KeyError`) of the addresses whose
`NoVote` list contains `best_proposal_id`, `best_proposal_id - 1` and
`best_proposal_id - 2`. -/
def get_nonvoting_fedkeys_in_last_3_proposals
    (address_to_fedkey_map : List (String × String))
    (fed_member_votes : List (String × VoteRecord))
    (best_proposal_id : Int) : Except Unit (List String) :=
  (fed_member_votes.filter (fun kv =>
      decide (best_proposal_id ∈ kv.2.NoVote ∧ best_proposal_id - 1 ∈ kv.2.NoVote ∧
        best_proposal_id - 2 ∈ kv.2.NoVote))).mapM
    (fun kv =>
      match address_to_fedkey_map.lookup kv.1 with
      | none => Except.error ()
      | some fk => Except.ok fk)

/-- Python string comparison: lexicographic on the code-point
sequences. -/
def charListLe : List Char → List Char → Bool
  | [], _ => true
  | _ :: _, [] => false
  | a :: as, b :: bs => if a < b then true else if b < a then false else charListLe as bs

/-- Python `str` `<=`, as used by `list.sort()` on strings. -/
def pyStrLe (a b : String) : Bool := charListLe a.data b.data

/-- The fixed header line of the report. -/
def report_header : String :=
  "**The following fedkeys were eligible and have not voted for the last 3 completed proposal votes:**"

/-- `markdown_format_output`: header line, then the `"- "`-bulleted keys,
sorted (`list.sort()`), joined with newlines. -/
def markdown_format_output (nonvoting_fedkeys : List String) : String :=
  let bullets := nonvoting_fedkeys.map (fun fedkey => "- " ++ fedkey)
  String.intercalate "\n" (report_header :: bullets.mergeSort pyStrLe)

/-- `run_vote_monitor`: the whole pipeline, as composed in the source
(lines 329-379): scan, locate the completed-proposal window, whitelist,
tabulate, eligibility-filter the tabulation, detect delinquents, format. -/
def run_vote_monitor (node : Node) : Except Unit String :=
  let num_fed_members := (get_current_federation_pubkeys node).length
  match get_address_to_fedkey_map node ((num_fed_members : Int) * 3) with
  | .error e => .error e
  | .ok address_to_fedkey_map =>
    let highest_proposal_id := get_last_proposal_id node
    let num_sda_proposals := get_last_completed_proposal_id node highest_proposal_id
    let current_whitelisted_fed_addresses :=
      find_whitelisted_federation_addresses node (address_to_fedkey_map.map Prod.fst)
    let fed_member_votes :=
      tabulate_fed_member_votes node current_whitelisted_fed_addresses num_sda_proposals
    match filter_eligible_fedkeys node fed_member_votes address_to_fedkey_map
        (num_sda_proposals : Int) with
    | .error e => .error e
    | .ok fed_member_votes =>
      match get_nonvoting_fedkeys_in_last_3_proposals address_to_fedkey_map
          fed_member_votes (num_sda_proposals : Int) with
      | .error e => .error e
      | .ok nonvoting_fedkeys => .ok (markdown_format_output nonvoting_fedkeys)

/-! ## Spec-side definitions -/

/-- The spec's completion predicate: a proposal is completed iff its
ending height is nonzero and strictly below the current chain height. -/
def completed (node : Node) (proposal_id : Nat) : Prop :=
  node.deadlines (proposal_id : Int) ≠ 0 ∧
    node.deadlines (proposal_id : Int) < node.blockCount

instance (node : Node) (proposal_id : Nat) : Decidable (completed node proposal_id) := by
  unfold completed
  infer_instance

/-- The address sighted for key `k` at height `h`, if any: the scan at
`h` succeeded and returned producer key `k` with that address. -/
def height_sighting (node : Node) (k : String) (h : Int) : Option String :=
  match get_pubkey_and_address_for_height node h with
  | .ok (some (some pk, a)) => if pk = k then some a else none
  | _ => none

/-- The address of the earliest sighting of key `k` along the height
list `hs`. -/
def first_sighting (node : Node) (hs : List Int) (k : String) : Option String :=
  hs.findSome? (height_sighting node k)

/-- The delinquency predicate of the spec: the `NoVote` list contains
`B`, `B-1` and `B-2`. -/
def delinquent (best_proposal_id : Int) (v : VoteRecord) : Prop :=
  best_proposal_id ∈ v.NoVote ∧ best_proposal_id - 1 ∈ v.NoVote ∧
    best_proposal_id - 2 ∈ v.NoVote

/-- A vout qualifies when its script type is a recognized pay-to-key or
pay-to-key-hash type. -/
def qualifying_vout (v : Vout) : Prop :=
  v.script_pubkey.type = "pubkey" ∨ v.script_pubkey.type = "pubkeyhash"

instance (v : Vout) : Decidable (qualifying_vout v) := by
  unfold qualifying_vout
  infer_instance

/-! ## Concrete chain states used as test vectors -/

/-- A block holding a single transaction with a single output. -/
def oneVoutBlock (ty : String) (a : List String) : Block := ⟨[⟨[⟨⟨ty, a⟩⟩]⟩]⟩

/-- The spec's first-seen-wins test vector: five blocks at heights
100-104 with producer/address pairs (PKA,A),(PKB,B),(PKA,A2),(PKC,C),
(PKB,B2). -/
def exC1 : Node where
  blockCount := 105
  minerAtHeight := fun h =>
    if h = 100 then some "PKA" else if h = 101 then some "PKB"
    else if h = 102 then some "PKA" else if h = 103 then some "PKC"
    else if h = 104 then some "PKB" else none
  blockAtHeight := fun h =>
    if h = 100 then oneVoutBlock "pubkey" ["A"]
    else if h = 101 then oneVoutBlock "pubkey" ["B"]
    else if h = 102 then oneVoutBlock "pubkey" ["A2"]
    else if h = 103 then oneVoutBlock "pubkey" ["C"]
    else if h = 104 then oneVoutBlock "pubkey" ["B2"]
    else oneVoutBlock "pubkey" ["Z"]
  federationMembers := []
  federationAtHeight := fun _ => []
  isWhitelisted := fun _ => true
  getVote := fun _ _ => some 0
  lastProposalId := 0
  deadlines := fun _ => 0

/-- A chain whose block at the scanned height 100 has only a `nulldata`
output: no qualifying output exists there. -/
def exC2 : Node where
  blockCount := 101
  minerAtHeight := fun _ => some "PKA"
  blockAtHeight := fun _ => oneVoutBlock "nulldata" []
  federationMembers := []
  federationAtHeight := fun _ => []
  isWhitelisted := fun _ => true
  getVote := fun _ _ => some 0
  lastProposalId := 0
  deadlines := fun _ => 0

/-- A chain where height 100 has no producer key but a qualifying
output, and height 101 is normal. -/
def exC2b : Node where
  blockCount := 102
  minerAtHeight := fun h => if h = 101 then some "PKB" else none
  blockAtHeight := fun h =>
    if h = 101 then oneVoutBlock "pubkeyhash" ["B"] else oneVoutBlock "pubkey" ["A"]
  federationMembers := []
  federationAtHeight := fun _ => []
  isWhitelisted := fun _ => true
  getVote := fun _ _ => some 0
  lastProposalId := 0
  deadlines := fun _ => 0

/-- The spec's completion-windowing test vector: proposals with ending
heights [50, 80, 120, 150, 0] (ids 1-5), current height 160. -/
def exC3 : Node where
  blockCount := 160
  minerAtHeight := fun _ => none
  blockAtHeight := fun _ => oneVoutBlock "pubkey" ["A"]
  federationMembers := []
  federationAtHeight := fun _ => []
  isWhitelisted := fun _ => true
  getVote := fun _ _ => some 0
  lastProposalId := 5
  deadlines := fun proposal_id =>
    if proposal_id = 1 then 50 else if proposal_id = 2 then 80
    else if proposal_id = 3 then 120 else if proposal_id = 4 then 150 else 0

/-- A pipeline node: federation {PKA, PKB}, both payout addresses
whitelisted, but only PKA in the federation at the checkpoint height;
three completed proposals; every `GetVote` answers 0 (`NoVote`). -/
def exC5 : Node where
  blockCount := 106
  minerAtHeight := fun h => if h = 101 then some "PKB" else some "PKA"
  blockAtHeight := fun h =>
    if h = 101 then oneVoutBlock "pubkey" ["B"] else oneVoutBlock "pubkey" ["A"]
  federationMembers := ["PKA", "PKB"]
  federationAtHeight := fun _ => ["PKA"]
  isWhitelisted := fun _ => true
  getVote := fun _ _ => some 0
  lastProposalId := 3
  deadlines := fun proposal_id =>
    if proposal_id = 1 then 50 else if proposal_id = 2 then 80
    else if proposal_id = 3 then 90 else 0

/-- A chain where two distinct producer keys PKA (height 100) and PKB
(height 101) pay out to the same address A. -/
def exC6 : Node where
  blockCount := 102
  minerAtHeight := fun h => if h = 100 then some "PKA" else some "PKB"
  blockAtHeight := fun _ => oneVoutBlock "pubkey" ["A"]
  federationMembers := []
  federationAtHeight := fun _ => []
  isWhitelisted := fun _ => true
  getVote := fun _ _ => some 0
  lastProposalId := 0
  deadlines := fun _ => 0

/-- A pipeline node whose highest completed proposal id is 2 (< 3):
two proposals with deadlines 50 and 80, current height 160, every vote
cast `Yes`. -/
def exC9 : Node where
  blockCount := 160
  minerAtHeight := fun h => if h = 157 then some "PKB" else some "PKA"
  blockAtHeight := fun h =>
    if h = 157 then oneVoutBlock "pubkey" ["B"] else oneVoutBlock "pubkey" ["A"]
  federationMembers := ["PKA", "PKB"]
  federationAtHeight := fun _ => ["PKA", "PKB"]
  isWhitelisted := fun _ => true
  getVote := fun _ _ => some 2
  lastProposalId := 2
  deadlines := fun proposal_id =>
    if proposal_id = 1 then 50 else if proposal_id = 2 then 80 else 0

/-- A chain whose block holds two transactions: the first has only a
`nulldata` output, the second a qualifying `pubkeyhash` output paying X. -/
def exC10 : Node where
  blockCount := 101
  minerAtHeight := fun _ => some "PKA"
  blockAtHeight := fun _ => ⟨[⟨[⟨⟨"nulldata", []⟩⟩]⟩, ⟨[⟨⟨"pubkeyhash", ["X"]⟩⟩]⟩]⟩
  federationMembers := []
  federationAtHeight := fun _ => []
  isWhitelisted := fun _ => true
  getVote := fun _ _ => some 0
  lastProposalId := 0
  deadlines := fun _ => 0

/-- The spec's delinquency test vector: address A with NoVote [5,4,3],
address B with NoVote [5,4] and Yes [3]. -/
def exVotesC4 : List (String × VoteRecord) :=
  [("A", ⟨[5, 4, 3], [], []⟩), ("B", ⟨[5, 4], [], [3]⟩)]

/-- The address-to-key map for the delinquency test vector. -/
def exMapC4 : List (String × String) := [("A", "PKA"), ("B", "PKB")]

/-! ## Helper lemmas -/

theorem okBind {α β : Type} (a : α) (f : α → Except Unit β) :
    (Except.ok a >>= f) = f a := rfl

theorem errorBind {α β : Type} (e : Unit) (f : α → Except Unit β) :
    (Except.error e >>= f) = Except.error e := rfl

theorem first_sighting_cons (node : Node) (k : String) (h : Int) (t : List Int) :
    first_sighting node (h :: t) k =
      ((height_sighting node k h).or (first_sighting node t k)) := by
  simp only [first_sighting, List.findSome?_cons]
  cases height_sighting node k h <;> rfl

theorem scan_lookup (node : Node) (k : String) :
    ∀ (hs : List Int) (acc m : List (String × String)),
      hs.foldlM (fedkey_scan_step node) acc = .ok m →
      m.lookup k = ((acc.lookup k).or (first_sighting node hs k)) := by
  intro hs
  induction hs with
  | nil =>
    intro acc m hm
    simp only [List.foldlM_nil] at hm
    cases hm
    simp [first_sighting, Option.or_none]
  | cons h t ih =>
    intro acc m hm
    rw [List.foldlM_cons] at hm
    rcases hr : get_pubkey_and_address_for_height node h with e | o
    · have hstep : fedkey_scan_step node acc h = .error e := by
        simp [fedkey_scan_step, hr]
      rw [hstep, errorBind] at hm
      cases hm
    · rcases o with _ | ⟨pk?, addr⟩
      · have hstep : fedkey_scan_step node acc h = .error () := by
          simp [fedkey_scan_step, hr]
        rw [hstep, errorBind] at hm
        cases hm
      · rcases pk? with _ | pk
        · have hstep : fedkey_scan_step node acc h = .ok acc := by
            simp [fedkey_scan_step, hr]
          rw [hstep, okBind] at hm
          have hsight : height_sighting node k h = none := by
            simp [height_sighting, hr]
          rw [ih acc m hm, first_sighting_cons, hsight, Option.none_or]
        · by_cases hmem : (acc.lookup pk).isSome
          · have hstep : fedkey_scan_step node acc h = .ok acc := by
              simp [fedkey_scan_step, hr, hmem]
            rw [hstep, okBind] at hm
            rw [ih acc m hm, first_sighting_cons]
            by_cases hk : pk = k
            · subst hk
              obtain ⟨a0, ha0⟩ := Option.isSome_iff_exists.mp hmem
              rw [ha0]
              simp [Option.or]
            · have hsight : height_sighting node k h = none := by
                simp [height_sighting, hr, hk]
              rw [hsight, Option.none_or]
          · have hstep : fedkey_scan_step node acc h = .ok (acc ++ [(pk, addr)]) := by
              simp [fedkey_scan_step, hr, hmem]
            rw [hstep, okBind] at hm
            rw [ih _ m hm, List.lookup_append, first_sighting_cons]
            by_cases hk : pk = k
            · subst hk
              have hnone : acc.lookup pk = none := Option.not_isSome_iff_eq_none.mp hmem
              have hsight : height_sighting node pk h = some addr := by
                simp [height_sighting, hr]
              rw [hnone, hsight, List.lookup_cons_self]
              simp [Option.or]
            · have hkk : (k == pk) = false := by
                simp only [beq_eq_false_iff_ne, ne_eq]
                exact fun hc => hk hc.symm
              have hsingle : ([(pk, addr)] : List (String × String)).lookup k = none := by
                simp [List.lookup_cons, hkk]
              have hsight : height_sighting node k h = none := by
                simp [height_sighting, hr, hk]
              rw [hsingle, hsight, Option.or_none, Option.none_or]

theorem charListLe_iff (x y : List Char) : charListLe x y = true ↔ x ≤ y := by
  induction x generalizing y with
  | nil => cases y <;> simp [charListLe]
  | cons a as ih =>
    cases y with
    | nil =>
      simp only [charListLe, Bool.false_eq_true, false_iff, not_le]
      exact List.nil_lt_cons a as
    | cons b bs =>
      by_cases hab : a < b
      · simp only [charListLe, if_pos hab, true_iff]
        exact le_of_lt (List.Lex.rel hab)
      · by_cases hba : b < a
        · simp only [charListLe, if_neg hab, if_pos hba, Bool.false_eq_true, false_iff, not_le]
          exact List.Lex.rel hba
        · have heq : a = b := le_antisymm (not_lt.mp hba) (not_lt.mp hab)
          subst heq
          simp only [charListLe, if_neg hab, if_neg hba]
          rw [ih bs]
          constructor
          · intro h
            rw [← not_lt] at h ⊢
            intro hc
            exact h (List.Lex.cons_iff.mp hc)
          · intro h
            rw [← not_lt] at h ⊢
            intro hc
            exact h (List.Lex.cons_iff.mpr hc)

theorem pyStrLe_iff (a b : String) : pyStrLe a b = true ↔ a ≤ b := by
  rw [pyStrLe, charListLe_iff, String.le_iff_toList_le]
  rfl

theorem pyStrLe_bullet (a b : String) :
    pyStrLe ("- " ++ a) ("- " ++ b) = pyStrLe a b := by
  show charListLe ("- " ++ a).data ("- " ++ b).data = _
  rw [String.data_append, String.data_append]
  show charListLe ('-' :: ' ' :: a.data) ('-' :: ' ' :: b.data) = _
  simp [charListLe, lt_irrefl]
  rfl

theorem lookup_mapM_mem (mp : List (String × String)) :
    ∀ (l : List (String × VoteRecord)) (res : List String),
      l.mapM (fun kv =>
        match mp.lookup kv.1 with
        | none => Except.error ()
        | some fk => Except.ok fk) = .ok res →
      ∀ fk, fk ∈ res ↔ ∃ kv ∈ l, mp.lookup kv.1 = some fk := by
  intro l
  induction l with
  | nil =>
    intro res h fk
    simp only [List.mapM_nil] at h
    cases h
    simp
  | cons kv t ih =>
    intro res h fk
    rw [List.mapM_cons] at h
    rcases hl : mp.lookup kv.1 with _ | fk0
    · rw [hl] at h
      cases h
    · rw [hl] at h
      simp only [okBind] at h
      rcases ht : t.mapM (fun kv =>
          match mp.lookup kv.1 with
          | none => Except.error ()
          | some fk => Except.ok fk) with e | res'
      · rw [ht, errorBind] at h
        cases h
      · rw [ht] at h
        simp only [okBind] at h
        cases h
        constructor
        · intro hmem
          rcases List.mem_cons.mp hmem with rfl | hmem'
          · exact ⟨kv, List.mem_cons_self kv t, hl⟩
          · obtain ⟨kv', hkv', hkl⟩ := (ih res' ht fk).mp hmem'
            exact ⟨kv', List.mem_cons_of_mem _ hkv', hkl⟩
        · rintro ⟨kv', hkv', hkl⟩
          rcases List.mem_cons.mp hkv' with rfl | hkv''
          · rw [hl] at hkl
            cases hkl
            exact List.mem_cons_self _ _
          · exact List.mem_cons_of_mem _ ((ih res' ht fk).mpr ⟨kv', hkv'', hkl⟩)

theorem elig_fold_mem (mp : List (String × String)) (fed : List String) :
    ∀ (votes acc res : List (String × VoteRecord)),
      votes.foldlM (fun acc kv =>
        match mp.lookup kv.1 with
        | none => Except.error ()
        | some fk =>
          if fk ∈ fed then Except.ok (acc ++ [kv]) else Except.ok acc) acc = .ok res →
      ∀ kv ∈ res, kv ∈ acc ∨ (kv ∈ votes ∧ ∃ fk, mp.lookup kv.1 = some fk ∧ fk ∈ fed) := by
  intro votes
  induction votes with
  | nil =>
    intro acc res h kv hkv
    simp only [List.foldlM_nil] at h
    cases h
    exact Or.inl hkv
  | cons v t ih =>
    intro acc res h kv hkv
    rw [List.foldlM_cons] at h
    rcases hl : mp.lookup v.1 with _ | fk0
    · simp only [hl] at h
      rw [errorBind] at h
      cases h
    · simp only [hl] at h
      by_cases hf : fk0 ∈ fed
      · rw [if_pos hf, okBind] at h
        rcases ih (acc ++ [v]) res h kv hkv with hacc | ⟨hmem, fk, hfk, hffed⟩
        · rcases List.mem_append.mp hacc with hacc' | hv
          · exact Or.inl hacc'
          · rcases List.mem_singleton.mp hv with rfl
            exact Or.inr ⟨List.mem_cons_self _ _, fk0, hl, hf⟩
        · exact Or.inr ⟨List.mem_cons_of_mem _ hmem, fk, hfk, hffed⟩
      · rw [if_neg hf, okBind] at h
        rcases ih acc res h kv hkv with hacc | ⟨hmem, fk, hfk, hffed⟩
        · exact Or.inl hacc
        · exact Or.inr ⟨List.mem_cons_of_mem _ hmem, fk, hfk, hffed⟩

theorem elig_fold_ok (mp : List (String × String)) (fed : List String) :
    ∀ (votes acc : List (String × VoteRecord)),
      (∀ kv ∈ votes, (mp.lookup kv.1).isSome) →
      ∃ res, votes.foldlM (fun acc kv =>
        match mp.lookup kv.1 with
        | none => Except.error ()
        | some fk =>
          if fk ∈ fed then Except.ok (acc ++ [kv]) else Except.ok acc) acc = .ok res := by
  intro votes
  induction votes with
  | nil =>
    intro acc _
    exact ⟨acc, rfl⟩
  | cons v t ih =>
    intro acc hsome
    rw [List.foldlM_cons]
    obtain ⟨fk0, hfk0⟩ := Option.isSome_iff_exists.mp (hsome v (List.mem_cons_self _ _))
    simp only [hfk0]
    have ht : ∀ kv ∈ t, (mp.lookup kv.1).isSome :=
      fun kv hkv => hsome kv (List.mem_cons_of_mem _ hkv)
    by_cases hf : fk0 ∈ fed
    · rw [if_pos hf, okBind]
      exact ih (acc ++ [v]) ht
    · rw [if_neg hf, okBind]
      exact ih acc ht

theorem mapM_lookup_ok (mp : List (String × String)) :
    ∀ (l : List (String × VoteRecord)),
      (∀ kv ∈ l, (mp.lookup kv.1).isSome) →
      ∃ res, l.mapM (fun kv =>
        match mp.lookup kv.1 with
        | none => Except.error ()
        | some fk => Except.ok fk) = .ok res := by
  intro l
  induction l with
  | nil => exact fun _ => ⟨[], rfl⟩
  | cons v t ih =>
    intro hsome
    rw [List.mapM_cons]
    obtain ⟨fk0, hfk0⟩ := Option.isSome_iff_exists.mp (hsome v (List.mem_cons_self _ _))
    simp only [hfk0]
    obtain ⟨res', hres'⟩ := ih (fun kv hkv => hsome kv (List.mem_cons_of_mem _ hkv))
    rw [okBind, hres', okBind]
    exact ⟨fk0 :: res', rfl⟩

theorem lookup_isSome_of_mem_keys (mp : List (String × String)) (k : String)
    (h : k ∈ mp.map Prod.fst) : (mp.lookup k).isSome := by
  rw [List.lookup_isSome_iff]
  obtain ⟨p, hp, hpk⟩ := List.mem_map.mp h
  exact ⟨p, hp, by simp [hpk]⟩

theorem tabulate_keys (node : Node) (addrs : List String) (num : Nat) :
    (tabulate_fed_member_votes node addrs num).map Prod.fst = addrs := by
  rw [tabulate_fed_member_votes, List.map_map]
  show addrs.map (fun a => a) = addrs
  exact List.map_id' addrs

theorem glcpi_succ (node : Node) (H : Nat) :
    get_last_completed_proposal_id node (H + 1) =
      if completed node (H + 1) then H + 1 else get_last_completed_proposal_id node H := by
  unfold get_last_completed_proposal_id
  rw [List.range_succ, List.foldl_append, List.foldl_cons, List.foldl_nil]
  have hiff : (get_proposal_ending_height node ((H + 1 : Nat) : Int) < node.blockCount ∧
      get_proposal_ending_height node ((H + 1 : Nat) : Int) ≠ 0) ↔ completed node (H + 1) := by
    unfold completed get_proposal_ending_height
    exact and_comm
  rw [if_congr hiff rfl rfl]

theorem glcpi_pos (node : Node) (H : Nat) : 1 ≤ get_last_completed_proposal_id node H := by
  induction H with
  | zero => exact le_refl 1
  | succ n ih =>
    rw [glcpi_succ]
    by_cases hc : completed node (n + 1)
    · rw [if_pos hc]
      omega
    · rw [if_neg hc]
      exact ih

theorem glcpi_none (node : Node) (H : Nat)
    (h : ∀ pid, 1 ≤ pid → pid ≤ H → ¬ completed node pid) :
    get_last_completed_proposal_id node H = 1 := by
  induction H with
  | zero => rfl
  | succ n ih =>
    rw [glcpi_succ]
    rw [if_neg (h (n + 1) (by omega) (by omega))]
    exact ih (fun pid h1 h2 => h pid h1 (by omega))

theorem glcpi_ge (node : Node) (H : Nat) (pid : Nat)
    (h1 : 1 ≤ pid) (h2 : pid ≤ H) (hc : completed node pid) :
    pid ≤ get_last_completed_proposal_id node H := by
  induction H with
  | zero => omega
  | succ n ih =>
    rw [glcpi_succ]
    by_cases hcs : completed node (n + 1)
    · rw [if_pos hcs]
      omega
    · rw [if_neg hcs]
      have : pid ≠ n + 1 := fun hq => hcs (hq ▸ hc)
      exact ih (by omega)

theorem glcpi_mem (node : Node) (H : Nat)
    (h : ∃ pid, 1 ≤ pid ∧ pid ≤ H ∧ completed node pid) :
    completed node (get_last_completed_proposal_id node H) ∧
      get_last_completed_proposal_id node H ≤ H := by
  induction H with
  | zero =>
    obtain ⟨pid, h1, h2, _⟩ := h
    omega
  | succ n ih =>
    rw [glcpi_succ]
    by_cases hcs : completed node (n + 1)
    · rw [if_pos hcs]
      exact ⟨hcs, le_refl _⟩
    · rw [if_neg hcs]
      obtain ⟨pid, h1, h2, hc⟩ := h
      have hne : pid ≠ n + 1 := fun hq => hcs (hq ▸ hc)
      have := ih ⟨pid, h1, by omega, hc⟩
      exact ⟨this.1, by omega⟩

theorem dict_insert_keys_nodup (m : List (String × String)) (k v : String)
    (h : (m.map Prod.fst).Nodup) : ((dict_insert m k v).map Prod.fst).Nodup := by
  unfold dict_insert
  by_cases hmem : (m.lookup k).isSome
  · rw [if_pos hmem]
    have hkeys : ((m.map fun p => if p.1 = k then (k, v) else p).map Prod.fst) =
        m.map Prod.fst := by
      rw [List.map_map]
      apply List.map_congr_left
      intro p _
      by_cases hpk : p.1 = k <;> simp [hpk]
    rw [hkeys]
    exact h
  · rw [if_neg hmem]
    have hnot : k ∉ m.map Prod.fst := by
      intro hc
      exact hmem (lookup_isSome_of_mem_keys m k hc)
    rw [List.map_append]
    simp only [List.map_cons, List.map_nil]
    rw [List.Perm.nodup_iff (List.perm_append_singleton k (m.map Prod.fst))]
    exact List.nodup_cons.mpr ⟨hnot, h⟩

theorem dict_invert_keys_nodup (m : List (String × String)) :
    ((dict_invert m).map Prod.fst).Nodup := by
  unfold dict_invert
  suffices hgen : ∀ acc : List (String × String), (acc.map Prod.fst).Nodup →
      ((m.foldl (fun acc p => dict_insert acc p.2 p.1) acc).map Prod.fst).Nodup by
    exact hgen [] List.nodup_nil
  induction m with
  | nil => exact fun acc h => h
  | cons p t ih =>
    intro acc hacc
    rw [List.foldl_cons]
    exact ih _ (dict_insert_keys_nodup acc p.2 p.1 hacc)

theorem scan_keys_nodup (node : Node) :
    ∀ (hs : List Int) (acc m : List (String × String)),
      hs.foldlM (fedkey_scan_step node) acc = .ok m →
      (acc.map Prod.fst).Nodup → (m.map Prod.fst).Nodup := by
  intro hs
  induction hs with
  | nil =>
    intro acc m hm hacc
    simp only [List.foldlM_nil] at hm
    cases hm
    exact hacc
  | cons h t ih =>
    intro acc m hm hacc
    rw [List.foldlM_cons] at hm
    rcases hr : get_pubkey_and_address_for_height node h with e | o
    · have hstep : fedkey_scan_step node acc h = .error e := by
        simp [fedkey_scan_step, hr]
      rw [hstep, errorBind] at hm
      cases hm
    · rcases o with _ | ⟨pk?, addr⟩
      · have hstep : fedkey_scan_step node acc h = .error () := by
          simp [fedkey_scan_step, hr]
        rw [hstep, errorBind] at hm
        cases hm
      · rcases pk? with _ | pk
        · have hstep : fedkey_scan_step node acc h = .ok acc := by
            simp [fedkey_scan_step, hr]
          rw [hstep, okBind] at hm
          exact ih acc m hm hacc
        · by_cases hmem : (acc.lookup pk).isSome
          · have hstep : fedkey_scan_step node acc h = .ok acc := by
              simp [fedkey_scan_step, hr, hmem]
            rw [hstep, okBind] at hm
            exact ih acc m hm hacc
          · have hstep : fedkey_scan_step node acc h = .ok (acc ++ [(pk, addr)]) := by
              simp [fedkey_scan_step, hr, hmem]
            rw [hstep, okBind] at hm
            apply ih _ m hm
            have hnot : pk ∉ acc.map Prod.fst := by
              intro hc
              exact hmem (lookup_isSome_of_mem_keys acc pk hc)
            rw [List.map_append]
            simp only [List.map_cons, List.map_nil]
            rw [List.Perm.nodup_iff (List.perm_append_singleton pk (acc.map Prod.fst))]
            exact List.nodup_cons.mpr ⟨hnot, hacc⟩

theorem tabulate_getvote_queries_length (addrs : List String) (num : Nat) :
    (tabulate_getvote_queries addrs num).length = addrs.length * num := by
  unfold tabulate_getvote_queries
  induction addrs with
  | nil => simp
  | cons a t ih =>
    rw [List.flatMap_cons, List.length_append, ih, List.length_map, List.length_range,
      List.length_cons]
    ring

theorem run_vote_monitor_ok (node : Node) (m : List (String × String))
    (h : get_address_to_fedkey_map node
      (((get_current_federation_pubkeys node).length : Int) * 3) = .ok m) :
    ∃ s, run_vote_monitor node = .ok s := by
  unfold run_vote_monitor
  simp only [h]
  set B : Nat := get_last_completed_proposal_id node (get_last_proposal_id node) with hB
  set wl : List String :=
    find_whitelisted_federation_addresses node (m.map Prod.fst) with hwl
  set votes : List (String × VoteRecord) := tabulate_fed_member_votes node wl B with hvotes
  have hvkeys : ∀ kv ∈ votes, (m.lookup kv.1).isSome := by
    intro kv hkv
    apply lookup_isSome_of_mem_keys
    have h1 : kv.1 ∈ votes.map Prod.fst := List.mem_map_of_mem Prod.fst hkv
    rw [hvotes, tabulate_keys, hwl, find_whitelisted_federation_addresses] at h1
    exact List.mem_of_mem_filter h1
  obtain ⟨res, hres⟩ := elig_fold_ok m
    (node.federationAtHeight
      (get_proposal_ending_height node (eligibility_checkpoint_proposal_id (B : Int))))
    votes [] hvkeys
  have hfe : filter_eligible_fedkeys node votes m (B : Int) = .ok res := hres
  simp only [hfe]
  have hrkeys : ∀ kv ∈ res, (m.lookup kv.1).isSome := by
    intro kv hkv
    rcases elig_fold_mem m _ votes [] res hres kv hkv with hnil | ⟨hmem, _, _, _⟩
    · cases hnil
    · exact hvkeys kv hmem
  obtain ⟨res2, hres2⟩ := mapM_lookup_ok m
    (res.filter (fun kv =>
      decide ((B : Int) ∈ kv.2.NoVote ∧ (B : Int) - 1 ∈ kv.2.NoVote ∧
        (B : Int) - 2 ∈ kv.2.NoVote)))
    (fun kv hkv => hrkeys kv (List.mem_of_mem_filter hkv))
  have hnv : get_nonvoting_fedkeys_in_last_3_proposals m res (B : Int) = .ok res2 := hres2
  simp only [hnv]
  exact ⟨_, rfl⟩

theorem find_vout_address_append (l1 l2 : List Vout) :
    find_vout_address (l1 ++ l2) =
      match find_vout_address l1 with
      | .ok none => find_vout_address l2
      | r => r := by
  induction l1 with
  | nil => simp [find_vout_address]
  | cons w rest ih =>
    by_cases hq : w.script_pubkey.type = "pubkey" ∨ w.script_pubkey.type = "pubkeyhash"
    · rcases hh : w.script_pubkey.addresses.head? with _ | a'
      · simp [find_vout_address, hq, hh]
      · simp [find_vout_address, hq, hh]
    · simp only [List.cons_append, find_vout_address, if_neg hq]
      exact ih

theorem find_block_address_eq (ts : List Transaction) :
    find_block_address ts = find_vout_address (ts.flatMap Transaction.vout) := by
  induction ts with
  | nil => rfl
  | cons t rest ih =>
    rw [List.flatMap_cons, find_vout_address_append, find_block_address]
    rcases hv : find_vout_address t.vout with e | o
    · rfl
    · rcases o with _ | a
      · exact ih
      · rfl

theorem find_vout_address_eq_some (l : List Vout) (a : String) :
    find_vout_address l = .ok (some a) ↔
      ∃ p v s, l = p ++ v :: s ∧ (∀ u ∈ p, ¬ qualifying_vout u) ∧ qualifying_vout v ∧
        v.script_pubkey.addresses.head? = some a := by
  induction l with
  | nil =>
    simp only [find_vout_address]
    constructor
    · intro h
      cases h
    · rintro ⟨p, v, s, hps, -, -, -⟩
      exact absurd hps (by simp)
  | cons w rest ih =>
    by_cases hq : qualifying_vout w
    · rcases hh : w.script_pubkey.addresses.head? with _ | a'
      · rw [show find_vout_address (w :: rest) = .error () from by
          simp [find_vout_address, qualifying_vout] at hq ⊢
          simp [hq, hh]]
        constructor
        · intro h
          cases h
        · rintro ⟨p, v, s, hps, hp, hv, hhead⟩
          cases p with
          | nil =>
            simp only [List.nil_append, List.cons.injEq] at hps
            obtain ⟨rfl, rfl⟩ := hps
            rw [hh] at hhead
            cases hhead
          | cons u p' =>
            simp only [List.cons_append, List.cons.injEq] at hps
            obtain ⟨rfl, -⟩ := hps
            exact absurd hq (hp w (List.mem_cons_self _ _))
      · rw [show find_vout_address (w :: rest) = .ok (some a') from by
          simp [find_vout_address, qualifying_vout] at hq ⊢
          simp [hq, hh]]
        constructor
        · intro h
          cases h
          exact ⟨[], w, rest, rfl, by simp, hq, hh⟩
        · rintro ⟨p, v, s, hps, hp, hv, hhead⟩
          cases p with
          | nil =>
            simp only [List.nil_append, List.cons.injEq] at hps
            obtain ⟨rfl, rfl⟩ := hps
            rw [hh] at hhead
            cases hhead
            rfl
          | cons u p' =>
            simp only [List.cons_append, List.cons.injEq] at hps
            obtain ⟨rfl, -⟩ := hps
            exact absurd hq (hp w (List.mem_cons_self _ _))
    · rw [show find_vout_address (w :: rest) = find_vout_address rest from by
        simp only [find_vout_address, qualifying_vout] at hq ⊢
        rw [if_neg hq]]
      rw [ih]
      constructor
      · rintro ⟨p, v, s, hps, hp, hv, hhead⟩
        refine ⟨w :: p, v, s, by rw [hps, List.cons_append], ?_, hv, hhead⟩
        intro u hu
        rcases List.mem_cons.mp hu with rfl | hu'
        · exact hq
        · exact hp u hu'
      · rintro ⟨p, v, s, hps, hp, hv, hhead⟩
        cases p with
        | nil =>
          simp only [List.nil_append, List.cons.injEq] at hps
          obtain ⟨rfl, rfl⟩ := hps
          exact absurd hv hq
        | cons u p' =>
          simp only [List.cons_append, List.cons.injEq] at hps
          obtain ⟨rfl, hps'⟩ := hps
          exact ⟨p', v, s, hps', fun u' hu' => hp u' (List.mem_cons_of_mem _ hu'), hv, hhead⟩

/-- C1: `get_address_to_fedkey_map` scans heights tip-lookback..tip-1
ascending and records a key only when unseen, so the intermediate
key-to-address map holds each key's earliest sighting in the window; on
the 100-104 test vector the map is PKA:A, PKB:B, PKC:C. -/
theorem claim_C1_first_seen_wins (node : Node) (lookback : Int) (k : String)
    (m : List (String × String))
    (h : fedkey_to_address_map node lookback = .ok m) :
    m.lookup k = first_sighting node (scan_heights node lookback) k ∧
    fedkey_to_address_map exC1 5 = .ok [("PKA", "A"), ("PKB", "B"), ("PKC", "C")] := by
  constructor
  · exact scan_lookup node k (scan_heights node lookback) [] m h
  · rfl

theorem claim_C1_first_seen_wins_witness :
    ([("PKA", "A"), ("PKB", "B"), ("PKC", "C")] : List (String × String)).lookup "PKA" =
      first_sighting exC1 (scan_heights exC1 5) "PKA" ∧
    first_sighting exC1 (scan_heights exC1 5) "PKA" = some "A" :=
  ⟨(claim_C1_first_seen_wins exC1 5 "PKA" [("PKA", "A"), ("PKB", "B"), ("PKC", "C")] rfl).1,
    rfl⟩

/-- C2: evaluation of the scan at the failing input.  At a height whose
block has no qualifying output (`exC2`), the unpacking of the `None`
returned by `get_pubkey_and_address_for_height` raises (modelled
`.error`), so `get_address_to_fedkey_map` fails rather than skipping the
height; a height with a missing producer key but a qualifying output
(`exC2b`, height 100) is skipped gracefully as the claim says. -/
theorem claim_C2_missing_output_crashes :
    get_address_to_fedkey_map exC2 1 = .error () ∧
    fedkey_to_address_map exC2b 2 = .ok [("PKB", "B")] := ⟨rfl, rfl⟩

/-- C3: `get_last_completed_proposal_id` returns the largest id in
`1..H` whose ending height is nonzero and below the current height, and
1 when no proposal qualifies; on ending heights [50,80,120,150,0] at
height 160 it returns 4. -/
theorem claim_C3_last_completed (node : Node) (H : Nat) :
    ((∀ pid, 1 ≤ pid → pid ≤ H → ¬ completed node pid) →
      get_last_completed_proposal_id node H = 1) ∧
    (∀ pid, 1 ≤ pid → pid ≤ H → completed node pid →
      pid ≤ get_last_completed_proposal_id node H) ∧
    ((∃ pid, 1 ≤ pid ∧ pid ≤ H ∧ completed node pid) →
      completed node (get_last_completed_proposal_id node H) ∧
        get_last_completed_proposal_id node H ≤ H) ∧
    get_last_completed_proposal_id exC3 5 = 4 :=
  ⟨glcpi_none node H, fun pid h1 h2 hc => glcpi_ge node H pid h1 h2 hc,
    glcpi_mem node H, rfl⟩

theorem claim_C3_last_completed_witness :
    4 ≤ get_last_completed_proposal_id exC3 5 :=
  (claim_C3_last_completed exC3 5).2.1 4 (by decide) (by decide) (by decide)

instance (best_proposal_id : Int) (v : VoteRecord) : Decidable (delinquent best_proposal_id v) := by
  unfold delinquent
  infer_instance

/-- C4: a key is reported by the delinquency detector iff some address
in the tabulation maps to it and has all of B, B-1, B-2 in its NoVote
list; on the B=5 test vector only PKA is flagged. -/
theorem claim_C4_delinquency (address_to_fedkey_map : List (String × String))
    (fed_member_votes : List (String × VoteRecord)) (best_proposal_id : Int)
    (res : List String)
    (h : get_nonvoting_fedkeys_in_last_3_proposals address_to_fedkey_map fed_member_votes
      best_proposal_id = .ok res) :
    (∀ fk, fk ∈ res ↔ ∃ kv ∈ fed_member_votes, delinquent best_proposal_id kv.2 ∧
      address_to_fedkey_map.lookup kv.1 = some fk) ∧
    get_nonvoting_fedkeys_in_last_3_proposals exMapC4 exVotesC4 5 = .ok ["PKA"] := by
  constructor
  · intro fk
    unfold get_nonvoting_fedkeys_in_last_3_proposals at h
    rw [lookup_mapM_mem address_to_fedkey_map _ res h fk]
    constructor
    · rintro ⟨kv, hkv, hl⟩
      have hm := List.mem_filter.mp hkv
      exact ⟨kv, hm.1, of_decide_eq_true hm.2, hl⟩
    · rintro ⟨kv, hkv, hd, hl⟩
      exact ⟨kv, List.mem_filter.mpr ⟨hkv, decide_eq_true hd⟩, hl⟩
  · rfl

theorem claim_C4_delinquency_witness :
    ("PKA" ∈ (["PKA"] : List String) ↔ ∃ kv ∈ exVotesC4, delinquent 5 kv.2 ∧
      exMapC4.lookup kv.1 = some "PKA") :=
  (claim_C4_delinquency exMapC4 exVotesC4 5 ["PKA"] rfl).1 "PKA"

/-- C6 counterexample: on `exC6` two distinct keys PKA and PKB are both
recorded with address A, so the intermediate map is not injective, and
the inverted map keeps only the later key PKB: the inversion loses the
PKA entry. -/
theorem claim_C6_counterexample :
    fedkey_to_address_map exC6 2 = .ok [("PKA", "A"), ("PKB", "A")] ∧
    ("PKA" : String) ≠ "PKB" ∧
    ([("PKA", "A"), ("PKB", "A")] : List (String × String)).lookup "PKA" = some "A" ∧
    ([("PKA", "A"), ("PKB", "A")] : List (String × String)).lookup "PKB" = some "A" ∧
    get_address_to_fedkey_map exC6 2 = .ok [("A", "PKB")] ∧
    (dict_invert [("PKA", "A"), ("PKB", "A")]).length = 1 ∧
    ([("PKA", "A"), ("PKB", "A")] : List (String × String)).length = 2 := by
  refine ⟨rfl, ?_, rfl, rfl, rfl, rfl, rfl⟩
  decide

/-- C6 amended: for every successful scan, the intermediate map holds at
most one entry per key (its key list has no duplicates) and the inverted
map at most one entry per address; but distinct keys may share an
address, and then the inversion keeps only the last key. -/
theorem claim_C6_amended (node : Node) (lookback : Int) (m : List (String × String))
    (h : fedkey_to_address_map node lookback = .ok m) :
    (m.map Prod.fst).Nodup ∧ ((dict_invert m).map Prod.fst).Nodup :=
  ⟨scan_keys_nodup node (scan_heights node lookback) [] m h List.nodup_nil,
    dict_invert_keys_nodup m⟩

theorem claim_C6_amended_witness :
    (([("PKA", "A"), ("PKB", "A")] : List (String × String)).map Prod.fst).Nodup ∧
    ((dict_invert [("PKA", "A"), ("PKB", "A")]).map Prod.fst).Nodup :=
  claim_C6_amended exC6 2 [("PKA", "A"), ("PKB", "A")] rfl

/-- C7: an address whose resolved key is absent from the federation at
the ending height of proposal B-2 is excluded by
`filter_eligible_fedkeys`: it appears under no key of the filtered
tabulation handed to the delinquency detector. -/
theorem claim_C7_eligibility_exclusion (node : Node)
    (fed_member_votes : List (String × VoteRecord))
    (address_to_fedkey_map : List (String × String)) (best_proposal_id : Int)
    (res : List (String × VoteRecord)) (k fk : String)
    (h : filter_eligible_fedkeys node fed_member_votes address_to_fedkey_map
      best_proposal_id = .ok res)
    (hlook : address_to_fedkey_map.lookup k = some fk)
    (habsent : fk ∉ node.federationAtHeight
      (get_proposal_ending_height node (eligibility_checkpoint_proposal_id best_proposal_id))) :
    k ∉ res.map Prod.fst := by
  intro hc
  obtain ⟨kv, hkv, hk1⟩ := List.mem_map.mp hc
  rcases elig_fold_mem address_to_fedkey_map
      (node.federationAtHeight
        (get_proposal_ending_height node (eligibility_checkpoint_proposal_id best_proposal_id)))
      fed_member_votes [] res h kv hkv with hnil | ⟨_, fk', hfk', hmem⟩
  · cases hnil
  · rw [hk1, hlook] at hfk'
    cases hfk'
    exact habsent hmem

theorem claim_C7_eligibility_exclusion_witness :
    "B" ∉ ([("A", (⟨[1, 2, 3], [], []⟩ : VoteRecord))].map Prod.fst) :=
  claim_C7_eligibility_exclusion exC5 (tabulate_fed_member_votes exC5 ["A", "B"] 3)
    [("A", "PKA"), ("B", "PKB")] 3 [("A", ⟨[1, 2, 3], [], []⟩)] "B" "PKB"
    rfl rfl (by decide)

theorem pyStrLe_trans : ∀ (a b c : String), pyStrLe a b → pyStrLe b c → pyStrLe a c := by
  intro a b c hab hbc
  exact (pyStrLe_iff a c).mpr (le_trans ((pyStrLe_iff a b).mp hab) ((pyStrLe_iff b c).mp hbc))

theorem pyStrLe_total : ∀ (a b : String), pyStrLe a b || pyStrLe b a := by
  intro a b
  rw [Bool.or_eq_true]
  rcases le_total a b with h | h
  · exact Or.inl ((pyStrLe_iff a b).mpr h)
  · exact Or.inr ((pyStrLe_iff b a).mpr h)

unseal List.merge List.mergeSort in
/-- C8: the report is the fixed header followed by one `"- "` bullet per
flagged key, keys in ascending lexicographic order, joined by newlines;
on ["zzz111","aaa999"] the output lists aaa999 before zzz111. -/
theorem claim_C8_report_format (nonvoting_fedkeys : List String) :
    (∃ ks, List.Perm nonvoting_fedkeys ks ∧ ks.Pairwise (fun a b => a ≤ b) ∧
      markdown_format_output nonvoting_fedkeys =
        String.intercalate "\n" (report_header :: ks.map (fun k => "- " ++ k))) ∧
    markdown_format_output ["zzz111", "aaa999"] =
      "**The following fedkeys were eligible and have not voted for the last 3 completed proposal votes:**\n- aaa999\n- zzz111" := by
  constructor
  · refine ⟨nonvoting_fedkeys.mergeSort pyStrLe, (List.mergeSort_perm nonvoting_fedkeys pyStrLe).symm, ?_, ?_⟩
    · have hp : (nonvoting_fedkeys.mergeSort pyStrLe).Pairwise (fun a b => pyStrLe a b) :=
        List.sorted_mergeSort pyStrLe_trans pyStrLe_total nonvoting_fedkeys
      exact hp.imp (fun hab => (pyStrLe_iff _ _).mp hab)
    · unfold markdown_format_output
      have hmap : (nonvoting_fedkeys.mergeSort pyStrLe).map (fun k => "- " ++ k) =
          (nonvoting_fedkeys.map (fun k => "- " ++ k)).mergeSort pyStrLe :=
        List.map_mergeSort (fun a _ b _ => (pyStrLe_bullet a b).symm)
      show String.intercalate "\n"
          (report_header :: (nonvoting_fedkeys.map (fun k => "- " ++ k)).mergeSort pyStrLe) = _
      rw [← hmap]
  · rfl

/-- C5 counterexample: on `exC5` both resolved addresses A and B are
whitelisted, B = 3, and the tabulation issues 6 `GetVote` queries (2
whitelisted addresses x 3 proposals), while only one address survives
the eligibility filter: |eligible| x B = 3, not 6. -/
theorem claim_C5_counterexample :
    get_address_to_fedkey_map exC5
      (((get_current_federation_pubkeys exC5).length : Int) * 3) =
      .ok [("A", "PKA"), ("B", "PKB")] ∧
    find_whitelisted_federation_addresses exC5 ["A", "B"] = ["A", "B"] ∧
    get_last_completed_proposal_id exC5 (get_last_proposal_id exC5) = 3 ∧
    filter_eligible_fedkeys exC5 (tabulate_fed_member_votes exC5 ["A", "B"] 3)
      [("A", "PKA"), ("B", "PKB")] 3 = .ok [("A", ⟨[1, 2, 3], [], []⟩)] ∧
    (tabulate_getvote_queries ["A", "B"] 3).length = 6 ∧
    ([("A", (⟨[1, 2, 3], [], []⟩ : VoteRecord))].length * 3 = 3) ∧
    (6 : Nat) ≠ 3 := by
  refine ⟨rfl, rfl, rfl, rfl, rfl, rfl, by decide⟩

/-- C5 amended: the tabulation stage runs over all whitelisted addresses
and its output feeds the eligibility filter (stage 4 runs after stage
5), so the total number of `GetVote` queries is |whitelisted| x B. -/
theorem claim_C5_amended (node : Node) (m : List (String × String))
    (h : get_address_to_fedkey_map node
      (((get_current_federation_pubkeys node).length : Int) * 3) = .ok m) :
    (tabulate_getvote_queries
        (find_whitelisted_federation_addresses node (m.map Prod.fst))
        (get_last_completed_proposal_id node (get_last_proposal_id node))).length =
      (find_whitelisted_federation_addresses node (m.map Prod.fst)).length *
        get_last_completed_proposal_id node (get_last_proposal_id node) ∧
    (tabulate_fed_member_votes node
        (find_whitelisted_federation_addresses node (m.map Prod.fst))
        (get_last_completed_proposal_id node (get_last_proposal_id node))).map Prod.fst =
      find_whitelisted_federation_addresses node (m.map Prod.fst) ∧
    (∀ fv nv,
      filter_eligible_fedkeys node
        (tabulate_fed_member_votes node
          (find_whitelisted_federation_addresses node (m.map Prod.fst))
          (get_last_completed_proposal_id node (get_last_proposal_id node)))
        m ((get_last_completed_proposal_id node (get_last_proposal_id node) : Nat) : Int) =
          .ok fv →
      get_nonvoting_fedkeys_in_last_3_proposals m fv
        ((get_last_completed_proposal_id node (get_last_proposal_id node) : Nat) : Int) =
          .ok nv →
      run_vote_monitor node = .ok (markdown_format_output nv)) := by
  refine ⟨tabulate_getvote_queries_length _ _, tabulate_keys node _ _, ?_⟩
  intro fv nv hfv hnv
  unfold run_vote_monitor
  simp only [h, hfv, hnv]

theorem claim_C5_amended_witness :
    run_vote_monitor exC5 = .ok (markdown_format_output ["PKA"]) :=
  (claim_C5_amended exC5 [("A", "PKA"), ("B", "PKB")] rfl).2.2
    [("A", ⟨[1, 2, 3], [], []⟩)] ["PKA"] rfl rfl

unseal List.merge List.mergeSort in
/-- C9 counterexample: on `exC9` the highest completed proposal id is
B = 2 < 3, the eligibility-checkpoint id B-2 is 0 and the last-three ids
are 2, 1, 0 — none of them negative — and the run completes. -/
theorem claim_C9_counterexample :
    get_last_completed_proposal_id exC9 (get_last_proposal_id exC9) = 2 ∧
    (2 : Nat) < 3 ∧
    eligibility_checkpoint_proposal_id ((2 : Nat) : Int) = 0 ∧
    ¬(eligibility_checkpoint_proposal_id ((2 : Nat) : Int) < 0 ∨
      ((2 : Nat) : Int) - 1 < 0 ∨ ((2 : Nat) : Int) - 2 < 0) ∧
    run_vote_monitor exC9 = .ok report_header := by
  refine ⟨rfl, by decide, by decide, by decide, rfl⟩

/-- C9 amended: when B < 3 the pipeline's checkpoint id B-2 and
last-three id B-2 are at most 0 (negative exactly when B = 1), and no
exception is raised: the run still produces a report. -/
theorem claim_C9_amended (node : Node) (m : List (String × String))
    (h : get_address_to_fedkey_map node
      (((get_current_federation_pubkeys node).length : Int) * 3) = .ok m)
    (hB : get_last_completed_proposal_id node (get_last_proposal_id node) < 3) :
    eligibility_checkpoint_proposal_id
      ((get_last_completed_proposal_id node (get_last_proposal_id node) : Nat) : Int) ≤ 0 ∧
    ((get_last_completed_proposal_id node (get_last_proposal_id node) : Nat) : Int) - 2 ≤ 0 ∧
    (eligibility_checkpoint_proposal_id
      ((get_last_completed_proposal_id node (get_last_proposal_id node) : Nat) : Int) < 0 ↔
      get_last_completed_proposal_id node (get_last_proposal_id node) = 1) ∧
    ∃ s, run_vote_monitor node = .ok s := by
  have h1 := glcpi_pos node (get_last_proposal_id node)
  refine ⟨?_, ?_, ?_, run_vote_monitor_ok node m h⟩
  · unfold eligibility_checkpoint_proposal_id
    omega
  · omega
  · unfold eligibility_checkpoint_proposal_id
    omega

theorem claim_C9_amended_witness :
    eligibility_checkpoint_proposal_id
      ((get_last_completed_proposal_id exC9 (get_last_proposal_id exC9) : Nat) : Int) ≤ 0 ∧
    ((get_last_completed_proposal_id exC9 (get_last_proposal_id exC9) : Nat) : Int) - 2 ≤ 0 ∧
    (eligibility_checkpoint_proposal_id
      ((get_last_completed_proposal_id exC9 (get_last_proposal_id exC9) : Nat) : Int) < 0 ↔
      get_last_completed_proposal_id exC9 (get_last_proposal_id exC9) = 1) ∧
    ∃ s, run_vote_monitor exC9 = .ok s :=
  claim_C9_amended exC9 [("A", "PKA"), ("B", "PKB")] rfl (by decide)

theorem gpafh_eq_some (node : Node) (height : Int) (pk? : Option String) (a : String) :
    get_pubkey_and_address_for_height node height = .ok (some (pk?, a)) ↔
      pk? = node.minerAtHeight height ∧
      find_block_address (node.blockAtHeight height).transactions = .ok (some a) := by
  unfold get_pubkey_and_address_for_height
  rcases hf : find_block_address (node.blockAtHeight height).transactions with e | o
  · simp [hf]
  · rcases o with _ | a'
    · simp [hf]
    · simp only [hf]
      constructor
      · intro hl
        cases hl
        exact ⟨rfl, rfl⟩
      · rintro ⟨rfl, hr⟩
        cases hr
        rfl

/-- C10 counterexample: on `exC10` the block's first transaction has no
qualifying output, yet the height still contributes: the address X is
taken from the second transaction. -/
theorem claim_C10_counterexample :
    (exC10.blockAtHeight 100).transactions.head? = some ⟨[⟨⟨"nulldata", []⟩⟩]⟩ ∧
    (∀ v ∈ (Transaction.mk [⟨⟨"nulldata", []⟩⟩]).vout, ¬ qualifying_vout v) ∧
    get_pubkey_and_address_for_height exC10 100 = .ok (some (some "PKA", "X")) ∧
    fedkey_to_address_map exC10 1 = .ok [("PKA", "X")] := by
  refine ⟨rfl, by decide, rfl, rfl⟩

/-- C10 amended: the height's contribution is the producer key together
with the first qualifying output taken over ALL transactions of the
block in order; if no transaction has one, the function returns no pair. -/
theorem claim_C10_amended (node : Node) (height : Int) (pk? : Option String) (a : String) :
    get_pubkey_and_address_for_height node height = .ok (some (pk?, a)) ↔
      pk? = node.minerAtHeight height ∧
      ∃ p v s, (node.blockAtHeight height).transactions.flatMap Transaction.vout =
          p ++ v :: s ∧ (∀ u ∈ p, ¬ qualifying_vout u) ∧ qualifying_vout v ∧
          v.script_pubkey.addresses.head? = some a := by
  rw [gpafh_eq_some, find_block_address_eq, find_vout_address_eq_some]

theorem claim_C10_amended_witness :
    (some "PKA" : Option String) = exC10.minerAtHeight 100 ∧
    ∃ p v s, (exC10.blockAtHeight 100).transactions.flatMap Transaction.vout =
        p ++ v :: s ∧ (∀ u ∈ p, ¬ qualifying_vout u) ∧ qualifying_vout v ∧
        v.script_pubkey.addresses.head? = some "X" :=
  (claim_C10_amended exC10 100 (some "PKA") "X").mp rfl
